import Mathlib

/-!
# Verification of the redtail stereoDNN CUDA kernels (`stereoDNN/lib/kernels.cu`)

This file gives a shallow embedding of the kernels in `kernels.cu` and proves
properties of them.

Modelling conventions:
* A device buffer is a total map `Nat → Int` from flat element index to value.
  The kernels are templated over an element type `T` and only move values,
  write the literal `0`, or perform a single addition per element, so element
  values are modelled abstractly as integers; all of the interesting content
  of the kernels is index arithmetic over `Nat`.
* A CUDA kernel is modelled as a function from a (flattened) thread coordinate
  to the list of `(index, value)` writes that thread performs; a launch is the
  application of all writes of all threads of the grid to the destination
  buffer.  Every destination element is written by at most one thread in each
  kernel of this file (proved below where needed), so the fold order of the
  writes is irrelevant and a fixed enumeration order is a faithful model.
* `uint32_t` arithmetic is `Nat` arithmetic reduced `% 2^32` where the C code
  can overflow.
* Host-side `assert`s (active in debug builds) are modelled as an early
  `CudaStatus.assertFailed` return leaving memory untouched.
* The outcome of an asynchronous kernel launch, as observed by
  `cudaGetLastError()` in the `CHECKK` macro, is supplied by an oracle
  `launch : Nat → CudaStatus` giving the status of the n-th launch of the
  operation.  A launch whose status is not `success` did not execute, so it
  leaves memory unchanged.
-/

namespace redtail

/-- The modulus of `uint32_t` arithmetic, `2^32`. -/
def UINT32_MOD : Nat := 4294967296

/-- Function `getBlockCount` (kernels.cu 37–43): `(total_size + block_size - 1) / block_size`
computed in `uint32_t` arithmetic.  Both parameters are `uint32_t`, so the
arguments are reduced `% 2^32`, and the `- 1` is the unsigned `-1`
(addition of `2^32 - 1`).  The two `assert`s of the source are modelled
separately by `getBlockCountAssertsOk`. -/
def getBlockCount (total_size block_size : Nat) : Nat :=
  ((total_size % UINT32_MOD + block_size % UINT32_MOD + (UINT32_MOD - 1)) % UINT32_MOD)
    / (block_size % UINT32_MOD)

/-- The two assertions of `getBlockCount` (kernels.cu 40–41):
`res > 0` and `(size_t)res * block_size >= total_size` (the product is taken
in 64-bit arithmetic, which never overflows for 32-bit factors). -/
def getBlockCountAssertsOk (total_size block_size : Nat) : Prop :=
  0 < getBlockCount total_size block_size ∧
    total_size % UINT32_MOD ≤ getBlockCount total_size block_size * (block_size % UINT32_MOD)

instance (t b : Nat) : Decidable (getBlockCountAssertsOk t b) := by
  unfold getBlockCountAssertsOk; infer_instance

/-- Status of an operation: `cudaSuccess`, a debug-build assertion failure, or
a CUDA error code returned by `cudaGetLastError()`. -/
inductive CudaStatus where
  | success : CudaStatus
  | assertFailed : CudaStatus
  | error : Nat → CudaStatus
deriving DecidableEq, Repr

/-! ## Write-list machinery

A kernel thread produces a list of `(index, value)` writes; a launch folds all
writes over the destination buffer.  `lastWrite` computes the last write a
list performs at a given index, which characterises the fold. -/

/-- Apply a list of `(index, value)` writes to a buffer, in order. -/
def applyWrites (writes : List (Nat × Int)) (dst : Nat → Int) : Nat → Int :=
  writes.foldl (fun acc wr => fun i => if i = wr.1 then wr.2 else acc i) dst

/-- The last value a write list stores at index `i`, if any. -/
def lastWrite : List (Nat × Int) → Nat → Option Int
  | [], _ => none
  | wr :: rest, i =>
    match lastWrite rest i with
    | some v => some v
    | none => if i = wr.1 then some wr.2 else none

/-- All writes performed by a 3-D grid of threads, enumerated over the
flattened grid extents `nx × ny × nz` (grid blocks × block threads per
dimension). -/
def gridWrites (thread : Nat → Nat → Nat → List (Nat × Int)) (nx ny nz : Nat) :
    List (Nat × Int) :=
  (List.range nz).flatMap fun iz =>
    (List.range ny).flatMap fun iy =>
      (List.range nx).flatMap fun ix => thread ix iy iz

/-- Execute a kernel launch: apply all writes of the grid to the destination. -/
def runGrid (thread : Nat → Nat → Nat → List (Nat × Int)) (nx ny nz : Nat)
    (dst : Nat → Int) : Nat → Int :=
  applyWrites (gridWrites thread nx ny nz) dst

/-! ## Cost volume kernels (kernels.cu 50–97)

`computeCostVolume` launches `costVolumeCopyKernel` (writing the left halves
of all disparity slices) and `costVolumeCopyPadKernel` (writing the shifted,
zero-padded right halves).  A thread is identified by its global coordinate
`(ix, iy, iz)`; threads outside `[0,w) × [0,h) × [0,c)` return without
writing. -/

/-- One thread of `costVolumeCopyKernel` (kernels.cu 51–70): reads
`val = src[isrc]` with `isrc = iz*h*w + iy*w + ix` and stores it at
`dst[isrc + idst*stride]` for `idst ∈ [0, disp)`, `stride = 2*c*h*w`. -/
def costVolumeCopyThread (src : Nat → Int) (c h w disp : Nat)
    (ix iy iz : Nat) : List (Nat × Int) :=
  if ix ≥ w ∨ iy ≥ h ∨ iz ≥ c then []
  else
    (List.range disp).map fun idst =>
      (iz * h * w + iy * w + ix + idst * (2 * c * h * w),
       src (iz * h * w + iy * w + ix))

/-- One thread of `costVolumeCopyPadKernel` (kernels.cu 73–97): with
`isrc = iz*h*w + iy*w + ix`, `idst = isrc + c*h*w`, for `pad ∈ [0, disp)`
stores at `dst[idst + pad*(2*c*h*w)]` the value `0` if `ix < pad` and
`src[isrc - pad]` otherwise. -/
def costVolumeCopyPadThread (src : Nat → Int) (c h w disp : Nat)
    (ix iy iz : Nat) : List (Nat × Int) :=
  if ix ≥ w ∨ iy ≥ h ∨ iz ≥ c then []
  else
    (List.range disp).map fun pad =>
      (iz * h * w + iy * w + ix + c * h * w + pad * (2 * (c * h * w)),
       if ix < pad then 0 else src (iz * h * w + iy * w + ix - pad))

/-- The memory effect of a successful `computeCostVolume` (kernels.cu
137–159): the left-copy kernel followed by the right-pad kernel, both on the
grid `⌈w/16⌉ × ⌈h/16⌉ × ⌈c/1⌉` of 16×16×1 blocks, with
`c,h,w = in_dims.d[0..2]` and `disp = out_dims.d[0]`. -/
def computeCostVolumeMem (left right : Nat → Int) (c h w disp : Nat)
    (cost_vol : Nat → Int) : Nat → Int :=
  runGrid (costVolumeCopyPadThread right c h w disp)
    (getBlockCount w 16 * 16) (getBlockCount h 16 * 16) (getBlockCount c 1 * 1)
    (runGrid (costVolumeCopyThread left c h w disp)
      (getBlockCount w 16 * 16) (getBlockCount h 16 * 16) (getBlockCount c 1 * 1)
      cost_vol)

/-! ## Host operations (kernels.cu 136–207)

`Dims` models `nvinfer1::Dims`: a rank, eight extents `d[8]`, and eight
dimension-type tags `type[8]`.  Extents are tensor shape sizes and hence
nonnegative; they are modelled as `Nat` (all theorems below stay inside the
`int32` range where this agrees with the C `int` fields). -/

structure Dims where
  nbDims : Nat
  d : Fin 8 → Nat
  dtype : Fin 8 → Nat

/-- kernels.cu 31. -/
def kMaxGridSizeY : Nat := 65535

/-- kernels.cu 32. -/
def kMaxGridSizeZ : Nat := 65535

/-- One thread of `addDBiasTo3DConvKernel` (kernels.cu 164–180): with
`cur_d = iz % d` and `idst = iz*h*w + iy*w + ix`, performs
`conv[idst] += bias[cur_d]`.  The read–modify–write is modelled against the
initial buffer `conv`, which is faithful because each element is written by
exactly one thread of the single launch. -/
def addDBiasTo3DConvKernelThread (bias : Nat → Int) (c d h w : Nat)
    (conv : Nat → Int) (ix iy iz : Nat) : List (Nat × Int) :=
  if ix ≥ w ∨ iy ≥ h ∨ iz ≥ d * c then []
  else
    [(iz * h * w + iy * w + ix,
      conv (iz * h * w + iy * w + ix) + bias (iz % d))]

/-- Host function `CudaKernels::addDBiasTo3DConv` (kernels.cu 182–207).  The four shape
assertions and the two grid-extent assertions are modelled as an
`assertFailed` early return (debug-build semantics); `launch n` is the status
the `CHECKK` macro observes after the n-th kernel launch, and a launch whose
status is not `success` did not execute. -/
def addDBiasTo3DConvOp (launch : Nat → CudaStatus) (bias : Nat → Int)
    (bias_dims : Dims) (conv : Nat → Int) (conv_dims : Dims) :
    CudaStatus × (Nat → Int) :=
  if bias_dims.nbDims ≠ 5 then (.assertFailed, conv)
  else if conv_dims.nbDims ≠ 4 then (.assertFailed, conv)
  else if bias_dims.d 0 ≠ 1 then (.assertFailed, conv)
  else if bias_dims.d 2 ≠ conv_dims.d 1 then (.assertFailed, conv)
  else if kMaxGridSizeY < getBlockCount (conv_dims.d 2) 16 then (.assertFailed, conv)
  else if kMaxGridSizeZ < getBlockCount (conv_dims.d 0 * conv_dims.d 1) 1 then
    (.assertFailed, conv)
  else if launch 0 ≠ .success then (launch 0, conv)
  else
    (.success,
     runGrid
       (addDBiasTo3DConvKernelThread bias (conv_dims.d 0) (conv_dims.d 1)
         (conv_dims.d 2) (conv_dims.d 3) conv)
       (getBlockCount (conv_dims.d 3) 16 * 16)
       (getBlockCount (conv_dims.d 2) 16 * 16)
       (getBlockCount (conv_dims.d 0 * conv_dims.d 1) 1 * 1)
       conv)

/-- Host function `CudaKernels::computeCostVolume` (kernels.cu 136–159).  Returns the
status, the final buffer, and the number of kernels launched.  After each of
the two launches `CHECKK` queries the launch status; a non-success status is
returned immediately. -/
def computeCostVolumeOp (launch : Nat → CudaStatus) (left right : Nat → Int)
    (in_dims out_dims : Dims) (cost_vol : Nat → Int) :
    CudaStatus × (Nat → Int) × Nat :=
  if in_dims.nbDims ≠ 3 then (.assertFailed, cost_vol, 0)
  else if out_dims.nbDims ≠ 4 then (.assertFailed, cost_vol, 0)
  else if launch 0 ≠ .success then (launch 0, cost_vol, 1)
  else if launch 1 ≠ .success then
    (launch 1,
     runGrid
       (costVolumeCopyThread left (in_dims.d 0) (in_dims.d 1) (in_dims.d 2) (out_dims.d 0))
       (getBlockCount (in_dims.d 2) 16 * 16) (getBlockCount (in_dims.d 1) 16 * 16)
       (getBlockCount (in_dims.d 0) 1 * 1) cost_vol, 2)
  else
    (.success,
     computeCostVolumeMem left right (in_dims.d 0) (in_dims.d 1) (in_dims.d 2)
       (out_dims.d 0) cost_vol, 2)

/-! ## C9: precision-conversion launch geometry (kernels.cu 212–259)

`fp32Tofp16` and `fp16Tofp32` share the same launch: `b_dim = 256`,
`g_dim.x = getBlockCount(size, 256)` where the `size_t` element count is
truncated to `uint32_t` by `getBlockCount`'s parameter type.  Inside the
kernels, `tid = blockIdx.x*blockDim.x + threadIdx.x` is computed in
`uint32_t` arithmetic (so thread `i` of the flattened grid gets
`tid = i % 2^32`) and compared against the full, un-truncated `size`.  The
elementwise fp32↔fp16 conversion is hardware floating point and is
abstracted as an arbitrary function `f`; only the indexing is modelled. -/

/-- Number of blocks launched by `fp32Tofp16`/`fp16Tofp32`. -/
def fpGridDim (size : Nat) : Nat := getBlockCount size 256

/-- One thread (flat id `i`) of `fp32Tofp16Kernel`/`fp16Tofp32Kernel`:
returns without writing if `tid ≥ size`, else writes `dst[tid] = f(src[tid])`
with `tid = i % 2^32`. -/
def fpConversionThread (f : Int → Int) (src : Nat → Int) (size : Nat) (i : Nat) :
    List (Nat × Int) :=
  if i % UINT32_MOD ≥ size then []
  else [(i % UINT32_MOD, f (src (i % UINT32_MOD)))]

/-- The full effect of a conversion launch on the destination buffer. -/
def fpConversionRun (f : Int → Int) (src dst : Nat → Int) (size : Nat) : Nat → Int :=
  applyWrites ((List.range (fpGridDim size * 256)).flatMap (fpConversionThread f src size))
    dst

/-- Returns `true` iff thread `i` of the conversion grid performs a write at
destination index `idx` (the write set does not depend on the converted
values). -/
def threadWritesIdx (size i idx : Nat) : Bool :=
  (fpConversionThread (fun t => t) (fun _ => 0) size i).any (fun p => p.1 == idx)

theorem applyWrites_eq_lastWrite (writes : List (Nat × Int)) (dst : Nat → Int) (i : Nat) :
    applyWrites writes dst i =
      match lastWrite writes i with
      | some v => v
      | none => dst i := by
  induction writes generalizing dst with
  | nil => rfl
  | cons wr rest ih =>
    show applyWrites rest (fun j => if j = wr.1 then wr.2 else dst j) i = _
    rw [ih]
    rcases h : lastWrite rest i with _ | v
    · simp only [lastWrite, h]
      by_cases hi : i = wr.1 <;> simp [hi]
    · simp only [lastWrite, h]

theorem lastWrite_mem {writes : List (Nat × Int)} {i : Nat} {v : Int}
    (h : lastWrite writes i = some v) : (i, v) ∈ writes := by
  induction writes with
  | nil => simp [lastWrite] at h
  | cons wr rest ih =>
    rcases hr : lastWrite rest i with _ | u
    · simp only [lastWrite, hr] at h
      by_cases hi : i = wr.1
      · rw [if_pos hi] at h
        have : (i, v) = wr := by
          cases h; exact Prod.ext hi rfl
        simp [this]
      · rw [if_neg hi] at h; cases h
    · simp only [lastWrite, hr] at h
      cases h
      exact List.mem_cons_of_mem _ (ih hr)

theorem lastWrite_eq_none {writes : List (Nat × Int)} {i : Nat}
    (h : ∀ p ∈ writes, p.1 ≠ i) : lastWrite writes i = none := by
  induction writes with
  | nil => rfl
  | cons wr rest ih =>
    have hr : lastWrite rest i = none := ih (fun p hp => h p (List.mem_cons_of_mem _ hp))
    have hw : wr.1 ≠ i := h wr (List.mem_cons_self _ _)
    simp only [lastWrite, hr]
    rw [if_neg (fun hi => hw hi.symm)]

theorem lastWrite_eq_some {writes : List (Nat × Int)} {i : Nat} {v : Int}
    (hmem : (i, v) ∈ writes) (huniq : ∀ p ∈ writes, p.1 = i → p.2 = v) :
    lastWrite writes i = some v := by
  induction writes with
  | nil => cases hmem
  | cons wr rest ih =>
    by_cases hin : (i, v) ∈ rest
    · have hr := ih hin (fun p hp hpi => huniq p (List.mem_cons_of_mem _ hp) hpi)
      simp only [lastWrite, hr]
    · have hw : (i, v) = wr := by
        rcases List.mem_cons.mp hmem with h | h
        · exact h
        · exact absurd h hin
      have hr : lastWrite rest i = none := by
        rcases hnr : lastWrite rest i with _ | u
        · rfl
        · have hmu := lastWrite_mem hnr
          have huv : ((i, u) : Nat × Int).2 = v :=
            huniq (i, u) (List.mem_cons_of_mem _ hmu) rfl
          simp only at huv
          subst huv
          exact absurd hmu hin
      simp only [lastWrite, hr]
      rw [if_pos (by rw [← hw]), ← hw]

theorem applyWrites_eq_of_uniqueWrite {writes : List (Nat × Int)} {i : Nat} {v : Int}
    (dst : Nat → Int)
    (hmem : (i, v) ∈ writes) (huniq : ∀ p ∈ writes, p.1 = i → p.2 = v) :
    applyWrites writes dst i = v := by
  rw [applyWrites_eq_lastWrite, lastWrite_eq_some hmem huniq]

theorem applyWrites_eq_of_noWrite {writes : List (Nat × Int)} {i : Nat}
    (dst : Nat → Int) (h : ∀ p ∈ writes, p.1 ≠ i) :
    applyWrites writes dst i = dst i := by
  rw [applyWrites_eq_lastWrite, lastWrite_eq_none h]

theorem mem_gridWrites {thread : Nat → Nat → Nat → List (Nat × Int)}
    {nx ny nz : Nat} {p : Nat × Int} :
    p ∈ gridWrites thread nx ny nz ↔
      ∃ iz, iz < nz ∧ ∃ iy, iy < ny ∧ ∃ ix, ix < nx ∧ p ∈ thread ix iy iz := by
  simp [gridWrites, List.mem_flatMap, List.mem_range]

/-! ## Arithmetic helpers for flat indices -/

theorem mulAdd_inj (m k b k' b' : Nat) (hb : b < m) (hb' : b' < m)
    (h : k * m + b = k' * m + b') : k = k' ∧ b = b' := by
  have hm : 0 < m := Nat.lt_of_le_of_lt (Nat.zero_le b) hb
  have h1 : (m * k + b) % m = b := by rw [Nat.mul_add_mod, Nat.mod_eq_of_lt hb]
  have h2 : (m * k' + b') % m = b' := by rw [Nat.mul_add_mod, Nat.mod_eq_of_lt hb']
  have hbb : b = b' := by
    rw [← h1, ← h2, Nat.mul_comm m k, Nat.mul_comm m k', h]
  refine ⟨?_, hbb⟩
  subst hbb
  have hk : k * m = k' * m := by omega
  exact Nat.eq_of_mul_eq_mul_right hm hk

theorem flat2_lt (h w iy ix : Nat) (hy : iy < h) (hx : ix < w) :
    iy * w + ix < h * w := by
  have h1 : iy * w + w ≤ h * w := by
    have h2 : (iy + 1) * w ≤ h * w := Nat.mul_le_mul_right w (Nat.succ_le_of_lt hy)
    calc iy * w + w = (iy + 1) * w := by ring
    _ ≤ h * w := h2
  omega

theorem flat3_lt (c h w iz iy ix : Nat) (hz : iz < c) (hy : iy < h) (hx : ix < w) :
    iz * h * w + iy * w + ix < c * h * w := by
  have h1 : iy * w + ix < h * w := flat2_lt h w iy ix hy hx
  have h2 : iz * (h * w) + (h * w) ≤ c * (h * w) := by
    have h3 : (iz + 1) * (h * w) ≤ c * (h * w) :=
      Nat.mul_le_mul_right (h * w) (Nat.succ_le_of_lt hz)
    calc iz * (h * w) + (h * w) = (iz + 1) * (h * w) := by ring
    _ ≤ c * (h * w) := h3
  calc iz * h * w + iy * w + ix = iz * (h * w) + (iy * w + ix) := by ring
  _ < iz * (h * w) + (h * w) := by omega
  _ ≤ c * (h * w) := h2
  _ = c * h * w := by ring

theorem flat3_inj (h w iz iy ix iz' iy' ix' : Nat)
    (hy : iy < h) (hx : ix < w) (hy' : iy' < h) (hx' : ix' < w)
    (heq : iz * h * w + iy * w + ix = iz' * h * w + iy' * w + ix') :
    iz = iz' ∧ iy = iy' ∧ ix = ix' := by
  have e1 : iz * (h * w) + (iy * w + ix) = iz' * (h * w) + (iy' * w + ix') := by
    have l : iz * (h * w) + (iy * w + ix) = iz * h * w + iy * w + ix := by ring
    have r : iz' * (h * w) + (iy' * w + ix') = iz' * h * w + iy' * w + ix' := by ring
    rw [l, r, heq]
  obtain ⟨hz, hrest⟩ := mulAdd_inj (h * w) iz (iy * w + ix) iz' (iy' * w + ix')
    (flat2_lt h w iy ix hy hx) (flat2_lt h w iy' ix' hy' hx') e1
  obtain ⟨hyy, hxx⟩ := mulAdd_inj w iy ix iy' ix' hx hx' hrest
  exact ⟨hz, hyy, hxx⟩

/-- On inputs where the `uint32_t` expression `total + block - 1` does not
overflow, `getBlockCount` is the exact ceiling division. -/
theorem getBlockCount_eq (n b : Nat) (hb : 0 < b) (hbM : b < UINT32_MOD)
    (hnM : n < UINT32_MOD) (h : n + b - 1 < UINT32_MOD) :
    getBlockCount n b = (n + b - 1) / b := by
  unfold getBlockCount
  rw [Nat.mod_eq_of_lt hnM, Nat.mod_eq_of_lt hbM]
  have h2 : n + b + (UINT32_MOD - 1) = (n + b - 1) + UINT32_MOD := by
    have : 0 < UINT32_MOD := by norm_num [UINT32_MOD]
    omega
  rw [h2, Nat.add_mod_right, Nat.mod_eq_of_lt h]

/-- Coverage: in the non-overflowing range, `getBlockCount n b` blocks of `b`
threads cover all `n` indices. -/
theorem le_getBlockCount_mul (n b : Nat) (hb : 0 < b) (hbM : b < UINT32_MOD)
    (hnM : n < UINT32_MOD) (h : n + b - 1 < UINT32_MOD) :
    n ≤ getBlockCount n b * b := by
  rw [getBlockCount_eq n b hb hbM hnM h]
  have hdm := Nat.div_add_mod (n + b - 1) b
  have hml : (n + b - 1) % b < b := Nat.mod_lt _ hb
  have hc : (n + b - 1) / b * b = b * ((n + b - 1) / b) := Nat.mul_comm _ _
  omega

/-- In the non-overflowing range the grid is no larger than `n + b - 1`. -/
theorem getBlockCount_mul_le (n b : Nat) (hb : 0 < b) (hbM : b < UINT32_MOD)
    (hnM : n < UINT32_MOD) (h : n + b - 1 < UINT32_MOD) :
    getBlockCount n b * b ≤ n + b - 1 := by
  rw [getBlockCount_eq n b hb hbM hnM h]
  exact Nat.div_mul_le_self _ _

theorem costVolumeCopyThread_mem {src : Nat → Int} {c h w disp ix iy iz : Nat}
    {p : Nat × Int} :
    p ∈ costVolumeCopyThread src c h w disp ix iy iz ↔
      (ix < w ∧ iy < h ∧ iz < c) ∧ ∃ d, d < disp ∧
        p = (iz * h * w + iy * w + ix + d * (2 * c * h * w),
             src (iz * h * w + iy * w + ix)) := by
  unfold costVolumeCopyThread
  by_cases hb : ix ≥ w ∨ iy ≥ h ∨ iz ≥ c
  · rw [if_pos hb]
    simp only [List.not_mem_nil, false_iff]
    rintro ⟨⟨h1, h2, h3⟩, -⟩
    omega
  · rw [if_neg hb]
    push_neg at hb
    simp only [List.mem_map, List.mem_range]
    constructor
    · rintro ⟨d, hd, hp⟩
      exact ⟨⟨hb.1, hb.2.1, hb.2.2⟩, d, hd, hp.symm⟩
    · rintro ⟨-, d, hd, hp⟩
      exact ⟨d, hd, hp.symm⟩

theorem costVolumeCopyPadThread_mem {src : Nat → Int} {c h w disp ix iy iz : Nat}
    {p : Nat × Int} :
    p ∈ costVolumeCopyPadThread src c h w disp ix iy iz ↔
      (ix < w ∧ iy < h ∧ iz < c) ∧ ∃ d, d < disp ∧
        p = (iz * h * w + iy * w + ix + c * h * w + d * (2 * (c * h * w)),
             if ix < d then 0 else src (iz * h * w + iy * w + ix - d)) := by
  unfold costVolumeCopyPadThread
  by_cases hb : ix ≥ w ∨ iy ≥ h ∨ iz ≥ c
  · rw [if_pos hb]
    simp only [List.not_mem_nil, false_iff]
    rintro ⟨⟨h1, h2, h3⟩, -⟩
    omega
  · rw [if_neg hb]
    push_neg at hb
    simp only [List.mem_map, List.mem_range]
    constructor
    · rintro ⟨d, hd, hp⟩
      exact ⟨⟨hb.1, hb.2.1, hb.2.2⟩, d, hd, hp.symm⟩
    · rintro ⟨-, d, hd, hp⟩
      exact ⟨d, hd, hp.symm⟩

/-- Every write of the left-copy grid lands at `d*(2*c*h*w) + e` with
`d < disp` and `e < c*h*w` (the left half of slice `d`), and carries the
source value at `e`. -/
theorem gridWrites_copy_shape {src : Nat → Int} {c h w disp nx ny nz : Nat}
    {p : Nat × Int} (hp : p ∈ gridWrites (costVolumeCopyThread src c h w disp) nx ny nz) :
    ∃ d, d < disp ∧ ∃ e, e < c * h * w ∧ p = (d * (2 * c * h * w) + e, src e) := by
  obtain ⟨iz, -, iy, -, ix, -, hmem⟩ := mem_gridWrites.mp hp
  obtain ⟨⟨hx, hy, hz⟩, d, hd, hpe⟩ := costVolumeCopyThread_mem.mp hmem
  refine ⟨d, hd, iz * h * w + iy * w + ix, flat3_lt c h w iz iy ix hz hy hx, ?_⟩
  rw [hpe]
  have : iz * h * w + iy * w + ix + d * (2 * c * h * w)
       = d * (2 * c * h * w) + (iz * h * w + iy * w + ix) := by ring
  rw [this]

/-- Every write of the right-pad grid lands at `d*(2*c*h*w) + (c*h*w + e)`
with `d < disp` and `e < c*h*w` (the right half of slice `d`). -/
theorem gridWrites_pad_shape {src : Nat → Int} {c h w disp nx ny nz : Nat}
    {p : Nat × Int} (hp : p ∈ gridWrites (costVolumeCopyPadThread src c h w disp) nx ny nz) :
    ∃ d, d < disp ∧ ∃ e, e < c * h * w ∧ p.1 = d * (2 * c * h * w) + (c * h * w + e) := by
  obtain ⟨iz, -, iy, -, ix, -, hmem⟩ := mem_gridWrites.mp hp
  obtain ⟨⟨hx, hy, hz⟩, d, hd, hpe⟩ := costVolumeCopyPadThread_mem.mp hmem
  refine ⟨d, hd, iz * h * w + iy * w + ix, flat3_lt c h w iz iy ix hz hy hx, ?_⟩
  rw [hpe]
  show iz * h * w + iy * w + ix + c * h * w + d * (2 * (c * h * w))
     = d * (2 * c * h * w) + (c * h * w + (iz * h * w + iy * w + ix))
  ring

/-- Value of the left-copy grid at the left half of slice `d`: the unshifted
source value, for every covered coordinate. -/
theorem runGrid_copy_eval (src : Nat → Int) (c h w disp nx ny nz : Nat) (dst : Nat → Int)
    (hnx : w ≤ nx) (hny : h ≤ ny) (hnz : c ≤ nz)
    (cc y x d : Nat) (hcc : cc < c) (hy : y < h) (hx : x < w) (hd : d < disp) :
    runGrid (costVolumeCopyThread src c h w disp) nx ny nz dst
        (d * (2 * c * h * w) + (cc * h * w + y * w + x))
      = src (cc * h * w + y * w + x) := by
  have hlt : cc * h * w + y * w + x < c * h * w := flat3_lt c h w cc y x hcc hy hx
  have h2A : 2 * c * h * w = 2 * (c * h * w) := by ring
  apply applyWrites_eq_of_uniqueWrite
  · apply mem_gridWrites.mpr
    refine ⟨cc, lt_of_lt_of_le hcc hnz, y, lt_of_lt_of_le hy hny, x,
      lt_of_lt_of_le hx hnx, ?_⟩
    apply costVolumeCopyThread_mem.mpr
    refine ⟨⟨hx, hy, hcc⟩, d, hd, ?_⟩
    have he : d * (2 * c * h * w) + (cc * h * w + y * w + x)
        = cc * h * w + y * w + x + d * (2 * c * h * w) := by ring
    rw [he]
  · rintro p hp hpi
    obtain ⟨d', hd', e', he', hpe⟩ := gridWrites_copy_shape hp
    rw [hpe] at hpi ⊢
    obtain ⟨-, hee⟩ := mulAdd_inj (2 * c * h * w) d' e' d (cc * h * w + y * w + x)
      (by omega) (by omega) hpi
    rw [hee]

/-- The right-pad grid never writes a left-half index `d*(2*c*h*w) + e`,
`e < c*h*w`. -/
theorem gridWrites_pad_ne_left {src : Nat → Int} {c h w disp nx ny nz : Nat}
    {p : Nat × Int} (hp : p ∈ gridWrites (costVolumeCopyPadThread src c h w disp) nx ny nz)
    {d e : Nat} (he : e < c * h * w) : p.1 ≠ d * (2 * c * h * w) + e := by
  obtain ⟨d', -, e', he', hpe⟩ := gridWrites_pad_shape hp
  rw [hpe]
  intro heq
  have h2A : 2 * c * h * w = 2 * (c * h * w) := by ring
  obtain ⟨-, hee⟩ := mulAdd_inj (2 * c * h * w) d' (c * h * w + e') d e
    (by omega) (by omega) heq
  omega

/-- The left-copy grid never writes a right-half index
`d*(2*c*h*w) + (c*h*w + e)`, `e < c*h*w`. -/
theorem gridWrites_copy_ne_right {src : Nat → Int} {c h w disp nx ny nz : Nat}
    {p : Nat × Int} (hp : p ∈ gridWrites (costVolumeCopyThread src c h w disp) nx ny nz)
    {d e : Nat} (he : e < c * h * w) : p.1 ≠ d * (2 * c * h * w) + (c * h * w + e) := by
  obtain ⟨d', -, e', he', hpe⟩ := gridWrites_copy_shape hp
  rw [hpe]
  intro heq
  have h2A : 2 * c * h * w = 2 * (c * h * w) := by ring
  obtain ⟨-, hee⟩ := mulAdd_inj (2 * c * h * w) d' e' d (c * h * w + e)
    (by omega) (by omega) heq
  omega

/-- Value of the right-pad grid at the right half of slice `d`: the source
shifted by `d` pixels toward increasing `x`, zero where the shift would read
before the start of the row. -/
theorem runGrid_pad_eval (src : Nat → Int) (c h w disp nx ny nz : Nat) (dst : Nat → Int)
    (hnx : w ≤ nx) (hny : h ≤ ny) (hnz : c ≤ nz)
    (cc y x d : Nat) (hcc : cc < c) (hy : y < h) (hx : x < w) (hd : d < disp) :
    runGrid (costVolumeCopyPadThread src c h w disp) nx ny nz dst
        (d * (2 * c * h * w) + (c * h * w + (cc * h * w + y * w + x)))
      = if x < d then 0 else src (cc * h * w + y * w + x - d) := by
  have hlt : cc * h * w + y * w + x < c * h * w := flat3_lt c h w cc y x hcc hy hx
  have h2A : 2 * c * h * w = 2 * (c * h * w) := by ring
  apply applyWrites_eq_of_uniqueWrite
  · apply mem_gridWrites.mpr
    refine ⟨cc, lt_of_lt_of_le hcc hnz, y, lt_of_lt_of_le hy hny, x,
      lt_of_lt_of_le hx hnx, ?_⟩
    apply costVolumeCopyPadThread_mem.mpr
    refine ⟨⟨hx, hy, hcc⟩, d, hd, ?_⟩
    have he : d * (2 * c * h * w) + (c * h * w + (cc * h * w + y * w + x))
        = cc * h * w + y * w + x + c * h * w + d * (2 * (c * h * w)) := by ring
    rw [he]
  · rintro p hp hpi
    obtain ⟨iz, -, iy, -, ix, -, hmem⟩ := mem_gridWrites.mp hp
    obtain ⟨⟨hix, hiy, hiz⟩, d', hd', hpe⟩ := costVolumeCopyPadThread_mem.mp hmem
    have hlt' : iz * h * w + iy * w + ix < c * h * w := flat3_lt c h w iz iy ix hiz hiy hix
    rw [hpe] at hpi ⊢
    have hpi' : d' * (2 * c * h * w) + (c * h * w + (iz * h * w + iy * w + ix))
        = d * (2 * c * h * w) + (c * h * w + (cc * h * w + y * w + x)) := by
      have hl : d' * (2 * c * h * w) + (c * h * w + (iz * h * w + iy * w + ix))
          = iz * h * w + iy * w + ix + c * h * w + d' * (2 * (c * h * w)) := by ring
      rw [hl]; exact hpi
    obtain ⟨hdd, hee⟩ := mulAdd_inj (2 * c * h * w) d' (c * h * w + (iz * h * w + iy * w + ix))
      d (c * h * w + (cc * h * w + y * w + x)) (by omega) (by omega) hpi'
    have hee' : iz * h * w + iy * w + ix = cc * h * w + y * w + x := by omega
    obtain ⟨hz, hyy, hxx⟩ := flat3_inj h w iz iy ix cc y x hiy hix hy hx hee'
    subst hz; subst hyy; subst hxx; subst hdd
    rfl

/-- The launch grid of `computeCostVolume` covers the whole `[C,H,W]` domain
for extents in `int32` range. -/
theorem costVolume_grid_covers (n : Nat) (hn : n < 2147483648) :
    n ≤ getBlockCount n 16 * 16 ∧ n ≤ getBlockCount n 1 * 1 := by
  have hM : UINT32_MOD = 4294967296 := rfl
  constructor
  · exact le_getBlockCount_mul n 16 (by norm_num) (by omega) (by omega) (by omega)
  · exact le_getBlockCount_mul n 1 (by norm_num) (by omega) (by omega) (by omega)

theorem runGrid_eq_of_noWrite {thread : Nat → Nat → Nat → List (Nat × Int)}
    {nx ny nz : Nat} (dst : Nat → Int) {i : Nat}
    (h : ∀ p ∈ gridWrites thread nx ny nz, p.1 ≠ i) :
    runGrid thread nx ny nz dst i = dst i :=
  applyWrites_eq_of_noWrite dst h

theorem runGrid_eq_lastWrite (thread : Nat → Nat → Nat → List (Nat × Int))
    (nx ny nz : Nat) (dst : Nat → Int) (i : Nat) :
    runGrid thread nx ny nz dst i =
      match lastWrite (gridWrites thread nx ny nz) i with
      | some v => v
      | none => dst i :=
  applyWrites_eq_lastWrite _ _ _

/-- C1: for every channel `cc`, row `y`, column `x` and disparity `d < disp`,
the right half of slice `d` of the cost volume produced by
`computeCostVolume` holds `right[cc,y,x−d]` when `x ≥ d` and `0` when
`x < d`. -/
theorem computeCostVolume_right_half
    (left right cost_vol : Nat → Int) (c h w disp : Nat)
    (hc : c < 2147483648) (hh : h < 2147483648) (hw : w < 2147483648)
    (cc y x d : Nat) (hcc : cc < c) (hy : y < h) (hx : x < w) (hd : d < disp) :
    computeCostVolumeMem left right c h w disp cost_vol
        (d * (2 * c * h * w) + (c * h * w + (cc * h * w + y * w + x)))
      = if d ≤ x then right (cc * h * w + y * w + (x - d)) else 0 := by
  unfold computeCostVolumeMem
  rw [runGrid_pad_eval right c h w disp _ _ _ _
    (costVolume_grid_covers w hw).1 (costVolume_grid_covers h hh).1
    (costVolume_grid_covers c hc).2 cc y x d hcc hy hx hd]
  by_cases hxd : x < d
  · rw [if_pos hxd, if_neg (by omega)]
  · rw [if_neg hxd, if_pos (by omega)]
    have he : cc * h * w + y * w + x - d = cc * h * w + y * w + (x - d) := by omega
    rw [he]

/-- Witness for C1 at `C=1, H=1, W=2, D=2`, `(c,y,x,d) = (0,0,1,1)`. -/
theorem computeCostVolume_right_half_witness :
    computeCostVolumeMem (fun i => (10 : Int) + i) (fun i => (100 : Int) + i) 1 1 2 2
        (fun _ => 0) (1 * (2 * 1 * 1 * 2) + (1 * 1 * 2 + (0 * 1 * 2 + 0 * 2 + 1)))
      = if 1 ≤ 1 then (fun i => (100 : Int) + i) (0 * 1 * 2 + 0 * 2 + (1 - 1)) else 0 :=
  computeCostVolume_right_half _ _ _ 1 1 2 2 (by norm_num) (by norm_num) (by norm_num)
    0 0 1 1 (by norm_num) (by norm_num) (by norm_num) (by norm_num)

/-- C2: for every channel `cc`, row `y`, column `x` and disparity `d < disp`,
the left half of slice `d` of the cost volume produced by
`computeCostVolume` holds `left[cc,y,x]`; the right-hand side does not
depend on `d`, so the left sub-slice is identical across all `d`. -/
theorem computeCostVolume_left_half
    (left right cost_vol : Nat → Int) (c h w disp : Nat)
    (hc : c < 2147483648) (hh : h < 2147483648) (hw : w < 2147483648)
    (cc y x d : Nat) (hcc : cc < c) (hy : y < h) (hx : x < w) (hd : d < disp) :
    computeCostVolumeMem left right c h w disp cost_vol
        (d * (2 * c * h * w) + (cc * h * w + y * w + x))
      = left (cc * h * w + y * w + x) := by
  unfold computeCostVolumeMem
  rw [runGrid_eq_of_noWrite _
    (fun p hp => gridWrites_pad_ne_left hp (flat3_lt c h w cc y x hcc hy hx))]
  exact runGrid_copy_eval left c h w disp _ _ _ cost_vol
    (costVolume_grid_covers w hw).1 (costVolume_grid_covers h hh).1
    (costVolume_grid_covers c hc).2 cc y x d hcc hy hx hd

/-- Witness for C2 at `C=1, H=1, W=2, D=2`, `(c,y,x,d) = (0,0,1,1)`. -/
theorem computeCostVolume_left_half_witness :
    computeCostVolumeMem (fun i => (10 : Int) + i) (fun i => (100 : Int) + i) 1 1 2 2
        (fun _ => 0) (1 * (2 * 1 * 1 * 2) + (0 * 1 * 2 + 0 * 2 + 1))
      = (fun i => (10 : Int) + i) (0 * 1 * 2 + 0 * 2 + 1) :=
  computeCostVolume_left_half _ _ _ 1 1 2 2 (by norm_num) (by norm_num) (by norm_num)
    0 0 1 1 (by norm_num) (by norm_num) (by norm_num) (by norm_num)

/-- C8: the left-copy grid writes only left-half indices `d*(2CHW) + e`
(`e < CHW`), the right-pad grid writes only right-half indices
`d*(2CHW) + CHW + e`, and consequently running the two kernels of
`computeCostVolume` in either order yields the same final buffer. -/
theorem costVolume_kernels_order_independent
    (left right cost_vol : Nat → Int) (c h w disp nx ny nz : Nat) :
    (∀ p ∈ gridWrites (costVolumeCopyThread left c h w disp) nx ny nz,
        ∃ d, d < disp ∧ ∃ e, e < c * h * w ∧ p.1 = d * (2 * c * h * w) + e)
    ∧ (∀ p ∈ gridWrites (costVolumeCopyPadThread right c h w disp) nx ny nz,
        ∃ d, d < disp ∧ ∃ e, e < c * h * w ∧ p.1 = d * (2 * c * h * w) + (c * h * w + e))
    ∧ ∀ i, runGrid (costVolumeCopyPadThread right c h w disp) nx ny nz
             (runGrid (costVolumeCopyThread left c h w disp) nx ny nz cost_vol) i
         = runGrid (costVolumeCopyThread left c h w disp) nx ny nz
             (runGrid (costVolumeCopyPadThread right c h w disp) nx ny nz cost_vol) i := by
  refine ⟨?_, ?_, ?_⟩
  · intro p hp
    obtain ⟨d, hd, e, he, hpe⟩ := gridWrites_copy_shape hp
    exact ⟨d, hd, e, he, by rw [hpe]⟩
  · intro p hp
    exact gridWrites_pad_shape hp
  · intro i
    rw [runGrid_eq_lastWrite, runGrid_eq_lastWrite, runGrid_eq_lastWrite,
      runGrid_eq_lastWrite]
    rcases hcp : lastWrite (gridWrites (costVolumeCopyThread left c h w disp) nx ny nz) i
      with _ | v
      <;> rcases hpd : lastWrite (gridWrites (costVolumeCopyPadThread right c h w disp) nx ny nz) i
      with _ | u
    · rfl
    · rfl
    · rfl
    · obtain ⟨d, hd, e, he, hpe⟩ := gridWrites_copy_shape (lastWrite_mem hcp)
      have hie : i = d * (2 * c * h * w) + e := congrArg Prod.fst hpe
      exact absurd hie (gridWrites_pad_ne_left (lastWrite_mem hpd) he)

/-- Witness for C8: order independence at `C=H=1, W=2, D=2`, index 5. -/
theorem costVolume_kernels_order_independent_witness :
    runGrid (costVolumeCopyPadThread (fun i => (100 : Int) + i) 1 1 2 2) 2 1 1
        (runGrid (costVolumeCopyThread (fun i => (10 : Int) + i) 1 1 2 2) 2 1 1
          (fun _ => 0)) 5
      = runGrid (costVolumeCopyThread (fun i => (10 : Int) + i) 1 1 2 2) 2 1 1
        (runGrid (costVolumeCopyPadThread (fun i => (100 : Int) + i) 1 1 2 2) 2 1 1
          (fun _ => 0)) 5 :=
  (costVolume_kernels_order_independent _ _ _ 1 1 2 2 2 1 1).2.2 5

/-! ## C4: `getBlockCount` as ceiling division -/

/-- C4 counterexample: at `total = 2^32 - 1`, `blockSize = 16` (both in the
`uint32_t` domain, `total > 0`), the `uint32_t` expression
`total + block_size - 1` wraps around, the function returns `0`, and none of
the claimed properties hold: the result is not `⌈total/blockSize⌉`, is not
`≥ 1`, and `result·blockSize < total`.  (The two source assertions also fail
on this input, consistent with §8 of the spec.) -/
theorem getBlockCount_claim_cex :
    getBlockCount 4294967295 16 = 0 ∧
      ¬ (getBlockCount 4294967295 16 = (4294967295 + 16 - 1) / 16
         ∧ 1 ≤ getBlockCount 4294967295 16
         ∧ 4294967295 ≤ getBlockCount 4294967295 16 * 16)
      ∧ ¬ getBlockCountAssertsOk 4294967295 16 := by
  refine ⟨by decide, by decide, by decide⟩

/-- C4 (amended): for every `total > 0` and `blockSize > 0` such that
`total + blockSize - 1` does not overflow `uint32_t`,
`getBlockCount total blockSize = ⌈total / blockSize⌉`, the result is `≥ 1`
and `result·blockSize ≥ total`; concretely `(10,16) → 1`, `(32,16) → 2`,
`(17,16) → 2`. -/
theorem getBlockCount_ceil_div (total bs : Nat) (ht : 0 < total) (hb : 0 < bs)
    (hof : total + bs - 1 < UINT32_MOD) :
    getBlockCount total bs = (total + bs - 1) / bs
    ∧ 1 ≤ getBlockCount total bs
    ∧ total ≤ getBlockCount total bs * bs
    ∧ getBlockCount 10 16 = 1 ∧ getBlockCount 32 16 = 2 ∧ getBlockCount 17 16 = 2 := by
  have hbM : bs < UINT32_MOD := by omega
  have htM : total < UINT32_MOD := by omega
  have hcov := le_getBlockCount_mul total bs hb hbM htM hof
  refine ⟨getBlockCount_eq total bs hb hbM htM hof, ?_, hcov, by decide, by decide, by decide⟩
  rcases Nat.eq_zero_or_pos (getBlockCount total bs) with h0 | h1
  · rw [h0] at hcov; simp at hcov; omega
  · exact h1

/-- Witness for C4 at `(10, 16)`. -/
theorem getBlockCount_ceil_div_witness :
    getBlockCount 10 16 = (10 + 16 - 1) / 16
    ∧ 1 ≤ getBlockCount 10 16
    ∧ 10 ≤ getBlockCount 10 16 * 16
    ∧ getBlockCount 10 16 = 1 ∧ getBlockCount 32 16 = 2 ∧ getBlockCount 17 16 = 2 :=
  getBlockCount_ceil_div 10 16 (by decide) (by decide) (by decide)

theorem addDBiasThread_mem {bias conv : Nat → Int} {c d h w ix iy iz : Nat}
    {p : Nat × Int} :
    p ∈ addDBiasTo3DConvKernelThread bias c d h w conv ix iy iz ↔
      (ix < w ∧ iy < h ∧ iz < d * c) ∧
        p = (iz * h * w + iy * w + ix,
             conv (iz * h * w + iy * w + ix) + bias (iz % d)) := by
  unfold addDBiasTo3DConvKernelThread
  by_cases hb : ix ≥ w ∨ iy ≥ h ∨ iz ≥ d * c
  · rw [if_pos hb]
    simp only [List.not_mem_nil, false_iff]
    rintro ⟨⟨h1, h2, h3⟩, -⟩
    omega
  · rw [if_neg hb]
    push_neg at hb
    simp only [List.mem_singleton]
    exact ⟨fun hp => ⟨⟨hb.1, hb.2.1, hb.2.2⟩, hp⟩, fun hp => hp.2⟩

/-- Value of the bias-add grid at every flat coordinate `(k, y, x)` of the
`[N·D, H, W]` domain: the initial value plus `bias[k mod D]`. -/
theorem runGrid_bias_eval (bias conv dst : Nat → Int) (c d h w nx ny nz : Nat)
    (hnx : w ≤ nx) (hny : h ≤ ny) (hnz : d * c ≤ nz)
    (k y x : Nat) (hk : k < d * c) (hy : y < h) (hx : x < w) :
    runGrid (addDBiasTo3DConvKernelThread bias c d h w conv) nx ny nz dst
        (k * h * w + y * w + x)
      = conv (k * h * w + y * w + x) + bias (k % d) := by
  apply applyWrites_eq_of_uniqueWrite
  · apply mem_gridWrites.mpr
    refine ⟨k, lt_of_lt_of_le hk hnz, y, lt_of_lt_of_le hy hny, x,
      lt_of_lt_of_le hx hnx, ?_⟩
    exact addDBiasThread_mem.mpr ⟨⟨hx, hy, hk⟩, rfl⟩
  · rintro p hp hpi
    obtain ⟨iz, -, iy, -, ix, -, hmem⟩ := mem_gridWrites.mp hp
    obtain ⟨⟨hix, hiy, hiz⟩, hpe⟩ := addDBiasThread_mem.mp hmem
    rw [hpe] at hpi ⊢
    obtain ⟨hz, hyy, hxx⟩ := flat3_inj h w iz iy ix k y x hiy hix hy hx hpi
    subst hz; subst hyy; subst hxx
    rfl

/-- The bias-add grid leaves every index outside the `[N·D, H, W]` domain
unchanged. -/
theorem runGrid_bias_noWrite (bias conv dst : Nat → Int) (c d h w nx ny nz i : Nat)
    (hi : ∀ k y x, k < d * c → y < h → x < w → i ≠ k * h * w + y * w + x) :
    runGrid (addDBiasTo3DConvKernelThread bias c d h w conv) nx ny nz dst i = dst i := by
  apply applyWrites_eq_of_noWrite
  rintro p hp
  obtain ⟨iz, -, iy, -, ix, -, hmem⟩ := mem_gridWrites.mp hp
  obtain ⟨⟨hix, hiy, hiz⟩, hpe⟩ := addDBiasThread_mem.mp hmem
  rw [hpe]
  exact fun hcon => hi iz iy ix hiz hiy hix hcon.symm

/-- Operation `addDBiasTo3DConv` on well-formed inputs reaches the kernel launch and
returns success. -/
theorem addDBiasTo3DConvOp_success_eq
    (launch : Nat → CudaStatus) (bias conv : Nat → Int) (bias_dims conv_dims : Dims)
    (hbr : bias_dims.nbDims = 5) (hcr : conv_dims.nbDims = 4)
    (hb0 : bias_dims.d 0 = 1) (hb2 : bias_dims.d 2 = conv_dims.d 1)
    (hgy : getBlockCount (conv_dims.d 2) 16 ≤ kMaxGridSizeY)
    (hgz : getBlockCount (conv_dims.d 0 * conv_dims.d 1) 1 ≤ kMaxGridSizeZ)
    (hlaunch : launch 0 = .success) :
    addDBiasTo3DConvOp launch bias bias_dims conv conv_dims
      = (.success,
         runGrid
           (addDBiasTo3DConvKernelThread bias (conv_dims.d 0) (conv_dims.d 1)
             (conv_dims.d 2) (conv_dims.d 3) conv)
           (getBlockCount (conv_dims.d 3) 16 * 16)
           (getBlockCount (conv_dims.d 2) 16 * 16)
           (getBlockCount (conv_dims.d 0 * conv_dims.d 1) 1 * 1)
           conv) := by
  unfold addDBiasTo3DConvOp
  rw [if_neg (by simp [hbr]), if_neg (by simp [hcr]), if_neg (by simp [hb0]),
    if_neg (by simp [hb2]), if_neg (by omega), if_neg (by omega),
    if_neg (by simp [hlaunch])]

/-- C3: for a conv tensor `[N,D,H,W]` and a rank-5 bias descriptor with batch
field `1` and depth field `D`, `addDBiasTo3DConv` succeeds, adds
`bias[k mod D]` to `conv[k,y,x]` for every flattened leading index
`k = n·D + d`, and modifies no other element. -/
theorem addDBiasTo3DConv_adds_bias
    (launch : Nat → CudaStatus) (bias conv : Nat → Int) (bias_dims conv_dims : Dims)
    (N D H W : Nat)
    (hd0 : conv_dims.d 0 = N) (hd1 : conv_dims.d 1 = D)
    (hd2 : conv_dims.d 2 = H) (hd3 : conv_dims.d 3 = W)
    (hbr : bias_dims.nbDims = 5) (hcr : conv_dims.nbDims = 4)
    (hb0 : bias_dims.d 0 = 1) (hb2 : bias_dims.d 2 = D)
    (hH : H ≤ 1048560) (hW : W < 2147483648) (hND : N * D ≤ 65535)
    (hlaunch : launch 0 = .success) :
    (addDBiasTo3DConvOp launch bias bias_dims conv conv_dims).1 = .success
    ∧ (∀ n dd y x, n < N → dd < D → y < H → x < W →
        (addDBiasTo3DConvOp launch bias bias_dims conv conv_dims).2
            ((n * D + dd) * H * W + y * W + x)
          = conv ((n * D + dd) * H * W + y * W + x) + bias ((n * D + dd) % D))
    ∧ (∀ i, (∀ k y x, k < N * D → y < H → x < W → i ≠ k * H * W + y * W + x) →
        (addDBiasTo3DConvOp launch bias bias_dims conv conv_dims).2 i = conv i) := by
  have hM : UINT32_MOD = 4294967296 := rfl
  have hkY : kMaxGridSizeY = 65535 := rfl
  have hkZ : kMaxGridSizeZ = 65535 := rfl
  have hgyv : getBlockCount H 16 = (H + 15) / 16 := by
    rw [getBlockCount_eq H 16 (by norm_num) (by omega) (by omega) (by omega)]
    omega
  have hgzv : getBlockCount (N * D) 1 = N * D := by
    rw [getBlockCount_eq (N * D) 1 (by norm_num) (by omega) (by omega) (by omega)]
    simp
  have hgy : getBlockCount (conv_dims.d 2) 16 ≤ kMaxGridSizeY := by
    rw [hd2, hgyv, hkY]
    have hd16 : (H + 15) / 16 ≤ 1048575 / 16 := Nat.div_le_div_right (by omega)
    omega
  have hgz : getBlockCount (conv_dims.d 0 * conv_dims.d 1) 1 ≤ kMaxGridSizeZ := by
    rw [hd0, hd1, hgzv, hkZ]; omega
  have hOp := addDBiasTo3DConvOp_success_eq launch bias conv bias_dims conv_dims
    hbr hcr hb0 (by rw [hb2, hd1]) hgy hgz hlaunch
  rw [hOp]
  have hcovW : W ≤ getBlockCount W 16 * 16 :=
    le_getBlockCount_mul W 16 (by norm_num) (by omega) (by omega) (by omega)
  have hcovH : H ≤ getBlockCount H 16 * 16 :=
    le_getBlockCount_mul H 16 (by norm_num) (by omega) (by omega) (by omega)
  have hcovZ : D * N ≤ getBlockCount (N * D) 1 * 1 := by
    rw [hgzv, Nat.mul_comm D N]; omega
  have hkdc : ∀ n dd, n < N → dd < D → n * D + dd < D * N := by
    intro n dd hn hdd
    have h1 : (n + 1) * D ≤ N * D := Nat.mul_le_mul_right D (by omega)
    have h2 : (n + 1) * D = n * D + D := by ring
    have h3 : N * D = D * N := Nat.mul_comm N D
    omega
  refine ⟨rfl, ?_, ?_⟩
  · intro n dd y x hn hdd hy hx
    simp only [hd0, hd1, hd2, hd3]
    exact runGrid_bias_eval bias conv conv N D H W _ _ _ hcovW hcovH hcovZ
      (n * D + dd) y x (hkdc n dd hn hdd) hy hx
  · intro i hi
    simp only [hd0, hd1, hd2, hd3]
    exact runGrid_bias_noWrite bias conv conv N D H W _ _ _ i
      (fun k y x hk hy hx => hi k y x (by rw [Nat.mul_comm N D]; exact hk) hy hx)

/-- Witness for C3: `N=1, D=2, H=1, W=1`, `conv=[5,7]`, `bias=[100,200]`,
at `(n,d,y,x) = (0,1,0,0)`. -/
theorem addDBiasTo3DConv_adds_bias_witness :
    (addDBiasTo3DConvOp (fun _ => .success)
        (fun i => if i = 0 then (100 : Int) else 200)
        ⟨5, fun j => if j.val = 2 then 2 else 1, fun _ => 0⟩
        (fun i => if i = 0 then (5 : Int) else 7)
        ⟨4, fun j => if j.val = 1 then 2 else 1, fun _ => 0⟩).2
        ((0 * 2 + 1) * 1 * 1 + 0 * 1 + 0)
      = (fun i => if i = 0 then (5 : Int) else 7) ((0 * 2 + 1) * 1 * 1 + 0 * 1 + 0)
        + (fun i => if i = 0 then (100 : Int) else 200) ((0 * 2 + 1) % 2) :=
  (addDBiasTo3DConv_adds_bias (fun _ => .success) _ _ _ _ 1 2 1 1
    (by decide) (by decide) (by decide) (by decide) (by decide) (by decide)
    (by decide) (by decide) (by decide) (by decide) (by decide) rfl).2.1
    0 1 0 0 (by decide) (by decide) (by decide) (by decide)

/-- C5: `CHECKK` after each launch of `computeCostVolume` propagates a
non-success launch status immediately: if the first (left-copy) launch fails,
the status is returned with the buffer untouched and only one kernel ever
launched — the second (right-pad) kernel is never launched; if the first
succeeds and the second fails, the second launch's status is returned. -/
theorem computeCostVolume_launch_error_propagation
    (launch : Nat → CudaStatus) (left right : Nat → Int) (in_dims out_dims : Dims)
    (cost_vol : Nat → Int) (hin : in_dims.nbDims = 3) (hout : out_dims.nbDims = 4) :
    (launch 0 ≠ .success →
      computeCostVolumeOp launch left right in_dims out_dims cost_vol
        = (launch 0, cost_vol, 1))
    ∧ (launch 0 = .success → launch 1 ≠ .success →
      (computeCostVolumeOp launch left right in_dims out_dims cost_vol).1 = launch 1
      ∧ (computeCostVolumeOp launch left right in_dims out_dims cost_vol).2.2 = 2) := by
  constructor
  · intro h0
    unfold computeCostVolumeOp
    rw [if_neg (by simp [hin]), if_neg (by simp [hout]), if_pos h0]
  · intro h0 h1
    unfold computeCostVolumeOp
    rw [if_neg (by simp [hin]), if_neg (by simp [hout]), if_neg (by simp [h0]),
      if_pos h1]
    exact ⟨rfl, rfl⟩

/-- Witness for C5: a failing first launch aborts `computeCostVolume` with
that status, an untouched buffer, and a single launch. -/
theorem computeCostVolume_launch_error_propagation_witness :
    computeCostVolumeOp (fun n => if n = 0 then .error 77 else .success)
        (fun _ => 0) (fun _ => 0) ⟨3, fun _ => 1, fun _ => 0⟩ ⟨4, fun _ => 1, fun _ => 0⟩
        (fun _ => (0 : Int))
      = (.error 77, fun _ => (0 : Int), 1) :=
  (computeCostVolume_launch_error_propagation
    (fun n => if n = 0 then .error 77 else .success) (fun _ => 0) (fun _ => 0)
    ⟨3, fun _ => 1, fun _ => 0⟩ ⟨4, fun _ => 1, fun _ => 0⟩ (fun _ => 0)
    rfl rfl).1 (by decide)

/-- C6: a launch grid whose y-extent `⌈H/16⌉` or z-extent `N·D` exceeds
65535 makes `addDBiasTo3DConv` report a non-success status with the output
buffer completely untouched (no partial write). -/
theorem addDBiasTo3DConv_grid_limit_failure
    (launch : Nat → CudaStatus) (bias conv : Nat → Int) (bias_dims conv_dims : Dims)
    (hH : conv_dims.d 2 < 2147483648)
    (hND : conv_dims.d 0 * conv_dims.d 1 < 2147483648)
    (hover : 65535 < (conv_dims.d 2 + 15) / 16
           ∨ 65535 < conv_dims.d 0 * conv_dims.d 1) :
    (addDBiasTo3DConvOp launch bias bias_dims conv conv_dims).1 ≠ .success
    ∧ (addDBiasTo3DConvOp launch bias bias_dims conv conv_dims).2 = conv := by
  have hM : UINT32_MOD = 4294967296 := rfl
  have hkY : kMaxGridSizeY = 65535 := rfl
  have hkZ : kMaxGridSizeZ = 65535 := rfl
  have hgy : getBlockCount (conv_dims.d 2) 16 = (conv_dims.d 2 + 15) / 16 := by
    rw [getBlockCount_eq (conv_dims.d 2) 16 (by norm_num) (by omega) (by omega) (by omega)]
    omega
  have hgz : getBlockCount (conv_dims.d 0 * conv_dims.d 1) 1
      = conv_dims.d 0 * conv_dims.d 1 := by
    rw [getBlockCount_eq _ 1 (by norm_num) (by omega) (by omega) (by omega)]
    simp
  unfold addDBiasTo3DConvOp
  split_ifs with h1 h2 h3 h4 h5 h6 h7
  · exact ⟨by simp, rfl⟩
  · exact ⟨by simp, rfl⟩
  · exact ⟨by simp, rfl⟩
  · exact ⟨by simp, rfl⟩
  · exact ⟨by simp, rfl⟩
  · exact ⟨by simp, rfl⟩
  · exact ⟨h7, rfl⟩
  · exfalso; omega

/-- Witness for C6: `N·D = 65536 > 65535` yields a non-success status and an
unchanged buffer. -/
theorem addDBiasTo3DConv_grid_limit_failure_witness :
    (addDBiasTo3DConvOp (fun _ => .success) (fun _ => 0)
        ⟨5, fun _ => 1, fun _ => 0⟩ (fun _ => (0 : Int))
        ⟨4, fun j => if j.val = 0 then 65536 else 1, fun _ => 0⟩).1 ≠ .success
    ∧ (addDBiasTo3DConvOp (fun _ => .success) (fun _ => 0)
        ⟨5, fun _ => 1, fun _ => 0⟩ (fun _ => (0 : Int))
        ⟨4, fun j => if j.val = 0 then 65536 else 1, fun _ => 0⟩).2 = (fun _ => (0 : Int)) :=
  addDBiasTo3DConv_grid_limit_failure (fun _ => .success) (fun _ => 0) (fun _ => 0)
    ⟨5, fun _ => 1, fun _ => 0⟩ ⟨4, fun j => if j.val = 0 then 65536 else 1, fun _ => 0⟩
    (by decide) (by decide) (Or.inr (by decide))

/-- C10: `addDBiasTo3DConv` reads only the rank, the batch field `d[0]` and
the depth field `d[2]` of the rank-5 bias descriptor; two calls whose bias
descriptors agree on those three fields, with everything else equal, produce
identical statuses and identical buffers. -/
theorem addDBiasTo3DConv_bias_dims_noninterference
    (launch : Nat → CudaStatus) (bias conv : Nat → Int) (conv_dims : Dims)
    (b1 b2 : Dims) (h0 : b1.nbDims = b2.nbDims) (h1 : b1.d 0 = b2.d 0)
    (h2 : b1.d 2 = b2.d 2) :
    addDBiasTo3DConvOp launch bias b1 conv conv_dims
      = addDBiasTo3DConvOp launch bias b2 conv conv_dims := by
  unfold addDBiasTo3DConvOp
  rw [h0, h1, h2]

/-- Witness for C10: two bias descriptors differing in `d[1]`, `d[3]` and the
dimension-type tags give identical results. -/
theorem addDBiasTo3DConv_bias_dims_noninterference_witness :
    addDBiasTo3DConvOp (fun _ => .success) (fun _ => 0)
        ⟨5, fun j => if j.val = 1 then 3 else 1, fun _ => 0⟩
        (fun _ => (0 : Int)) ⟨4, fun _ => 1, fun _ => 0⟩
      = addDBiasTo3DConvOp (fun _ => .success) (fun _ => 0)
        ⟨5, fun j => if j.val = 1 then 4 else 1, fun _ => 7⟩
        (fun _ => (0 : Int)) ⟨4, fun _ => 1, fun _ => 0⟩ :=
  addDBiasTo3DConv_bias_dims_noninterference (fun _ => .success) (fun _ => 0)
    (fun _ => 0) ⟨4, fun _ => 1, fun _ => 0⟩
    ⟨5, fun j => if j.val = 1 then 3 else 1, fun _ => 0⟩
    ⟨5, fun j => if j.val = 1 then 4 else 1, fun _ => 7⟩
    (by decide) (by decide) (by decide)

theorem fpConversionThread_idx {f : Int → Int} {src : Nat → Int} {size i : Nat}
    {p : Nat × Int} (hp : p ∈ fpConversionThread f src size i) :
    p.1 = i % UINT32_MOD ∧ i % UINT32_MOD < size := by
  unfold fpConversionThread at hp
  by_cases hb : i % UINT32_MOD ≥ size
  · rw [if_pos hb] at hp; cases hp
  · rw [if_neg hb] at hp
    rcases List.mem_singleton.mp hp with h
    rw [h]
    exact ⟨rfl, by omega⟩

theorem threadWritesIdx_iff (size i idx : Nat) :
    threadWritesIdx size i idx = true ↔ i % UINT32_MOD = idx ∧ i % UINT32_MOD < size := by
  unfold threadWritesIdx fpConversionThread
  by_cases hb : i % UINT32_MOD ≥ size
  · rw [if_pos hb]
    constructor
    · intro hcon
      simp only [List.any_nil] at hcon
      exact Bool.noConfusion hcon
    · rintro ⟨-, h2⟩
      omega
  · rw [if_neg hb]
    simp only [List.any_cons, List.any_nil, Bool.or_false, beq_iff_eq]
    omega

/-- C9 counterexample: `size = 2^32 − 1` satisfies the claim's precondition
`size < 2^32`, yet the `uint32_t` computation `size + 256 - 1` inside
`getBlockCount` wraps around, the launched grid is empty, and element index
`0 < size` is covered by no thread at all (rather than exactly one). -/
theorem fpConversion_coverage_cex :
    4294967295 < 4294967296
    ∧ (0 : Nat) < 4294967295
    ∧ fpGridDim 4294967295 = 0
    ∧ ¬ ∃ i ∈ List.range (fpGridDim 4294967295 * 256),
        threadWritesIdx 4294967295 i 0 = true := by
  refine ⟨by decide, by decide, by decide, by decide⟩

/-- C9 (amended): the conversion grid is computed from the element count
truncated to `uint32_t`, so every element index `idx < size` is covered by
exactly one thread under the precondition `size + 255 < 2^32` (the claim's
`size < 2^32` is not enough: just below `2^32` the block-count computation
itself overflows and covers nothing); and every index at or beyond the
thread range of the launched grid — in particular every index `≥ 2^32` when
`size ≥ 2^32` — is left unwritten. -/
theorem fpConversion_coverage (size : Nat) :
    (size + 255 < UINT32_MOD →
      ∀ idx, idx < size →
        ∃! i, i ∈ List.range (fpGridDim size * 256) ∧ threadWritesIdx size i idx = true)
    ∧ (∀ f src dst idx, fpGridDim size * 256 ≤ idx →
        fpConversionRun f src dst size idx = dst idx) := by
  constructor
  · intro hof idx hidx
    have hM : UINT32_MOD = 4294967296 := rfl
    have hcov : size ≤ fpGridDim size * 256 :=
      le_getBlockCount_mul size 256 (by norm_num) (by omega) (by omega) (by omega)
    have hub : fpGridDim size * 256 ≤ size + 256 - 1 :=
      getBlockCount_mul_le size 256 (by norm_num) (by omega) (by omega) (by omega)
    have hmodidx : idx % UINT32_MOD = idx := Nat.mod_eq_of_lt (by omega)
    refine ⟨idx, ⟨List.mem_range.mpr (by omega), ?_⟩, ?_⟩
    · exact (threadWritesIdx_iff size idx idx).mpr ⟨hmodidx, by omega⟩
    · rintro j ⟨hjr, hjw⟩
      have hj := List.mem_range.mp hjr
      have hmodj : j % UINT32_MOD = j := Nat.mod_eq_of_lt (by omega)
      obtain ⟨hj1, -⟩ := (threadWritesIdx_iff size j idx).mp hjw
      omega
  · intro f src dst idx hidx
    apply applyWrites_eq_of_noWrite
    intro p hp
    obtain ⟨i, hir, hpt⟩ := List.mem_flatMap.mp hp
    have hi := List.mem_range.mp hir
    obtain ⟨hp1, -⟩ := fpConversionThread_idx hpt
    have : i % UINT32_MOD ≤ i := Nat.mod_le _ _
    omega

/-- Witness for C9 at `size = 300`: index 5 is covered exactly once, and
index 600 (beyond the 512-thread grid) is left unwritten. -/
theorem fpConversion_coverage_witness :
    (∃! i, i ∈ List.range (fpGridDim 300 * 256) ∧ threadWritesIdx 300 i 5 = true)
    ∧ fpConversionRun (fun v => v + 1) (fun _ => 0) (fun _ => 9) 300 600
      = (fun _ => (9 : Int)) 600 :=
  ⟨(fpConversion_coverage 300).1 (by decide) 5 (by decide),
   (fpConversion_coverage 300).2 (fun v => v + 1) (fun _ => 0) (fun _ => 9) 600 (by decide)⟩

end redtail
